import Mathlib

/-!
# Skyline: Maxwell 3D register file, macro store and touch input

A shallow embedding of

* `skyline/soc/gm20b/engines/maxwell_3d.h`: the `Registers` union (a raw array
  of `RegisterCount` words overlaid with named `Register<Offset, Type>`
  members), the macro store and the pending macro invocation;
* `skyline/input/touch.cpp`: `TouchManager`, its constructor, `Activate` and
  `SetState`.

Sizes are counted in bytes, register offsets in 32-bit words, exactly as the
header does (`Register<Offset, Type>` pads with `Offset` values of type `u32`).
-/

namespace Skyline

namespace Maxwell3D

/-! ## The register file layout -/

/-- The constant `Maxwell3D::RegisterCount`: the number of Maxwell 3D registers. -/
def RegisterCount : Nat := 0xE00

/-- The value of `sizeof(u32)`. -/
def sizeofU32 : Nat := 4

/-- The value of `sizeof(i32)`. -/
def sizeofI32 : Nat := 4

/-- The value of `sizeof(u16)`. -/
def sizeofU16 : Nat := 2

/-- The value of `sizeof(float)`. -/
def sizeofFloat : Nat := 4

/-- The value of `sizeof(std::array<T, n>)` for an element of `elem` bytes. -/
def sizeofArray (elem n : Nat) : Nat := n * elem

/-- Byte sizes (and the two array lengths) of the declarations that the header
takes from `maxwell/types.h`, namespace `type`. That header is not part of the
available sources, so each `sizeof` is a parameter of the layout. -/
structure TypeSizes where
  MmeShadowRamControl : Nat
  SyncpointAction : Nat
  RenderTarget : Nat
  RenderTargetCount : Nat
  ViewportTransform : Nat
  ViewportCount : Nat
  Viewport : Nat
  PolygonMode : Nat
  Scissor : Nat
  VertexAttribute : Nat
  RenderTargetControl : Nat
  CompareOp : Nat
  BlendOp : Nat
  BlendFactor : Nat
  StencilOp : Nat
  MultisampleControl : Nat
  Address : Nat
  PointCoordReplace : Nat
  FrontFace : Nat
  CullFace : Nat
  ClearBuffers : Nat
  ColorWriteMask : Nat
  SemaphoreInfo : Nat
  Blend : Nat
  deriving DecidableEq, Repr

/-- A data member of one of the structs declared inside `Registers`: its name,
the `sizeof` of its type, and the word offset written in the comment that
follows the declaration (when there is one). -/
structure Member where
  name : String
  bytes : Nat
  comment : Option Nat
  deriving DecidableEq, Repr

/-- The value of `sizeof` for a struct declared under `#pragma pack(push, 1)`:
the members follow each other without padding. -/
def sizeofStruct (ms : List Member) : Nat := (ms.map Member.bytes).sum

/-- Byte offsets of the members of a packed struct whose first member is at
byte `pos`. -/
def memberOffsetsFrom : Nat → List Member → List Nat
  | _, [] => []
  | pos, m :: ms => pos :: memberOffsetsFrom (pos + m.bytes) ms

/-- The struct `Registers::MME`. -/
def MME (ts : TypeSizes) : List Member :=
  [ ⟨"instructionRamPointer", sizeofU32, some 0x45⟩,
    ⟨"instructionRamLoad", sizeofU32, some 0x46⟩,
    ⟨"startAddressRamPointer", sizeofU32, some 0x47⟩,
    ⟨"startAddressRamLoad", sizeofU32, some 0x48⟩,
    ⟨"shadowRamControl", ts.MmeShadowRamControl, some 0x49⟩ ]

/-- The struct `Registers::PolygonMode`. -/
def PolygonMode (ts : TypeSizes) : List Member :=
  [ ⟨"front", ts.PolygonMode, some 0x36B⟩,
    ⟨"back", ts.PolygonMode, some 0x36C⟩ ]

/-- The struct `Registers::StencilBackExtra`. -/
def StencilBackExtra : List Member :=
  [ ⟨"compareRef", sizeofU32, some 0x3D5⟩,
    ⟨"writeMask", sizeofU32, some 0x3D6⟩,
    ⟨"compareMask", sizeofU32, some 0x3D7⟩ ]

/-- The struct `Registers::TiledCacheSize` (its members carry no comment). -/
def TiledCacheSize : List Member :=
  [ ⟨"width", sizeofU16, none⟩,
    ⟨"height", sizeofU16, none⟩ ]

/-- The struct `Registers::BlendConstant`. -/
def BlendConstant : List Member :=
  [ ⟨"r", sizeofFloat, some 0x4C7⟩,
    ⟨"g", sizeofFloat, some 0x4C8⟩,
    ⟨"b", sizeofFloat, some 0x4C9⟩,
    ⟨"a", sizeofFloat, some 0x4CA⟩ ]

/-- The struct `Registers::BlendState`, members and comments as declared. -/
def BlendState (ts : TypeSizes) : List Member :=
  [ ⟨"seperateAlpha", sizeofU32, some 0x4CF⟩,
    ⟨"colorOp", ts.BlendOp, some 0x4D0⟩,
    ⟨"colorSrcFactor", ts.BlendFactor, some 0x4D1⟩,
    ⟨"colorDestFactor", ts.BlendFactor, some 0x4D2⟩,
    ⟨"alphaOp", ts.BlendOp, some 0x4D3⟩,
    ⟨"alphaSrcFactor", ts.BlendFactor, some 0x4D4⟩,
    ⟨"alphaDestFactor", ts.BlendFactor, some 0x4D6⟩,
    ⟨"enableCommon", sizeofU32, some 0x4D7⟩,
    ⟨"enable", sizeofArray sizeofU32 8, some 0x4D8⟩ ]

/-- The struct `Registers::StencilFront`; the members of the unnamed inner
struct `compare` are listed in place, which is where a packed layout puts them. -/
def StencilFront (ts : TypeSizes) : List Member :=
  [ ⟨"failOp", ts.StencilOp, some 0x4E1⟩,
    ⟨"zFailOp", ts.StencilOp, some 0x4E2⟩,
    ⟨"zPassOp", ts.StencilOp, some 0x4E3⟩,
    ⟨"compare.op", ts.CompareOp, some 0x4E4⟩,
    ⟨"compare.ref", sizeofI32, some 0x4E5⟩,
    ⟨"compare.mask", sizeofU32, some 0x4E6⟩,
    ⟨"writeMask", sizeofU32, some 0x4E7⟩ ]

/-- The struct `Registers::SamplerPool`. -/
def SamplerPool (ts : TypeSizes) : List Member :=
  [ ⟨"address", ts.Address, some 0x557⟩,
    ⟨"maximumIndex", sizeofU32, some 0x559⟩ ]

/-- The struct `Registers::TexturePool`. -/
def TexturePool (ts : TypeSizes) : List Member :=
  [ ⟨"address", ts.Address, some 0x55D⟩,
    ⟨"maximumIndex", sizeofU32, some 0x55F⟩ ]

/-- The struct `Registers::StencilBack`. -/
def StencilBack (ts : TypeSizes) : List Member :=
  [ ⟨"failOp", ts.StencilOp, some 0x566⟩,
    ⟨"zFailOp", ts.StencilOp, some 0x567⟩,
    ⟨"zPassOp", ts.StencilOp, some 0x568⟩,
    ⟨"compareOp", ts.CompareOp, some 0x569⟩ ]

/-- The struct `Registers::Semaphore`. -/
def Semaphore (ts : TypeSizes) : List Member :=
  [ ⟨"address", ts.Address, some 0x6C0⟩,
    ⟨"payload", sizeofU32, some 0x6C2⟩,
    ⟨"info", ts.SemaphoreInfo, some 0x6C3⟩ ]

/-- A named member `Register<Offset, Type> name` of the union: `offset` is the
template argument `Offset` (counted in `u32` pad elements), `bytes` is
`sizeof(Type)`. -/
structure Field where
  name : String
  offset : Nat
  bytes : Nat
  deriving DecidableEq, Repr

/-- The named members of `union Registers`, in declaration order. -/
def namedFields (ts : TypeSizes) : List Field :=
  [ ⟨"noOperation", 0x40, sizeofU32⟩,
    ⟨"waitForIdle", 0x44, sizeofU32⟩,
    ⟨"mme", 0x45, sizeofStruct (MME ts)⟩,
    ⟨"syncpointAction", 0xB2, ts.SyncpointAction⟩,
    ⟨"rasterizerEnable", 0xDF, sizeofU32⟩,
    ⟨"renderTargets", 0x200, sizeofArray ts.RenderTarget ts.RenderTargetCount⟩,
    ⟨"viewportTransforms", 0x280, sizeofArray ts.ViewportTransform ts.ViewportCount⟩,
    ⟨"viewports", 0x300, sizeofArray ts.Viewport ts.ViewportCount⟩,
    ⟨"clearColorValue", 0x360, sizeofArray sizeofU32 4⟩,
    ⟨"clearDepthValue", 0x364, sizeofU32⟩,
    ⟨"polygonMode", 0x36B, sizeofStruct (PolygonMode ts)⟩,
    ⟨"scissors", 0x380, sizeofArray ts.Scissor ts.ViewportCount⟩,
    ⟨"stencilBackExtra", 0x3D5, sizeofStruct StencilBackExtra⟩,
    ⟨"tiledCacheEnable", 0x3D8, sizeofU32⟩,
    ⟨"tiledCacheSize", 0x3D9, sizeofStruct TiledCacheSize⟩,
    ⟨"rtSeparateFragData", 0x3EB, sizeofU32⟩,
    ⟨"vertexAttributeState", 0x458, sizeofArray ts.VertexAttribute 0x20⟩,
    ⟨"renderTargetControl", 0x487, ts.RenderTargetControl⟩,
    ⟨"depthTestFunc", 0x4C3, ts.CompareOp⟩,
    ⟨"alphaTestRef", 0x4C4, sizeofFloat⟩,
    ⟨"alphaTestFunc", 0x4C5, ts.CompareOp⟩,
    ⟨"drawTFBStride", 0x4C6, sizeofU32⟩,
    ⟨"blendConstant", 0x4C7, sizeofStruct BlendConstant⟩,
    ⟨"blendState", 0x4CF, sizeofStruct (BlendState ts)⟩,
    ⟨"stencilEnable", 0x4E0, sizeofU32⟩,
    ⟨"stencilFront", 0x4E1, sizeofStruct (StencilFront ts)⟩,
    ⟨"lineWidthSmooth", 0x4EC, sizeofFloat⟩,
    ⟨"lineWidthAliased", 0x4D, sizeofFloat⟩,
    ⟨"drawBaseVertex", 0x50D, sizeofU32⟩,
    ⟨"drawBaseInstance", 0x50E, sizeofU32⟩,
    ⟨"clipDistanceEnable", 0x544, sizeofU32⟩,
    ⟨"sampleCounterEnable", 0x545, sizeofU32⟩,
    ⟨"pointSpriteSize", 0x546, sizeofFloat⟩,
    ⟨"zCullStatCountersEnable", 0x547, sizeofU32⟩,
    ⟨"pointSpriteEnable", 0x548, sizeofU32⟩,
    ⟨"shaderExceptions", 0x54A, sizeofU32⟩,
    ⟨"multisampleEnable", 0x54D, sizeofU32⟩,
    ⟨"depthTargetEnable", 0x54E, sizeofU32⟩,
    ⟨"multisampleControl", 0x54F, ts.MultisampleControl⟩,
    ⟨"samplerPool", 0x557, sizeofStruct (SamplerPool ts)⟩,
    ⟨"polygonOffsetFactor", 0x55B, sizeofU32⟩,
    ⟨"lineSmoothEnable", 0x55C, sizeofU32⟩,
    ⟨"texturePool", 0x55D, sizeofStruct (TexturePool ts)⟩,
    ⟨"stencilTwoSideEnable", 0x565, sizeofU32⟩,
    ⟨"stencilBack", 0x566, sizeofStruct (StencilBack ts)⟩,
    ⟨"pointCoordReplace", 0x581, ts.PointCoordReplace⟩,
    ⟨"cullFaceEnable", 0x646, sizeofU32⟩,
    ⟨"frontFace", 0x647, ts.FrontFace⟩,
    ⟨"cullFace", 0x648, ts.CullFace⟩,
    ⟨"pixelCentreImage", 0x649, sizeofU32⟩,
    ⟨"viewportTransformEnable", 0x64B, sizeofU32⟩,
    ⟨"clearBuffers", 0x674, ts.ClearBuffers⟩,
    ⟨"colorMask", 0x680, sizeofArray ts.ColorWriteMask ts.RenderTargetCount⟩,
    ⟨"semaphore", 0x6C0, sizeofStruct (Semaphore ts)⟩,
    ⟨"independentBlend", 0x780, sizeofArray ts.Blend ts.RenderTargetCount⟩,
    ⟨"firmwareCall", 0x8C0, sizeofArray sizeofU32 0x20⟩ ]

/-- Modelled from the spec: the template `util::OffsetMember<Offset, Type, u32>`
behind `Registers::Register`, declared in a common header that is not part of
the available sources. The spec describes the named fields as fixed-offset,
fixed-width views over contiguous runs of the 32-bit words: `Offset` pad words
followed by the value. This is its `sizeof`, in bytes. -/
def Field.sizeof (f : Field) : Nat := f.offset * sizeofU32 + f.bytes

/-- Number of 32-bit words a field covers (a partly covered word counts). -/
def Field.words (f : Field) : Nat := (f.bytes + (sizeofU32 - 1)) / sizeofU32

/-- First word after the field. -/
def Field.endWord (f : Field) : Nat := f.offset + f.words

/-- The value of `sizeof(Registers::raw)`, a `std::array<u32, RegisterCount>`. -/
def sizeofRaw : Nat := sizeofArray sizeofU32 RegisterCount

/-- The value of `sizeof(Registers)`: a packed union is as large as its largest
member, the raw array or one of the named fields. -/
def sizeofRegisters (ts : TypeSizes) : Nat :=
  ((namedFields ts).map Field.sizeof).foldl max sizeofRaw

/-- The condition of the `static_assert` that follows the union. -/
def staticAssertHolds (ts : TypeSizes) : Prop :=
  sizeofRegisters ts = RegisterCount * sizeofU32

/-- Two fields share a register word. -/
def Field.overlaps (f g : Field) : Prop :=
  f.offset < g.endWord ∧ g.offset < f.endWord

instance (f g : Field) : Decidable (f.overlaps g) := by
  unfold Field.overlaps; infer_instance

/-- The field declared under a given name. -/
def fieldNamed (ts : TypeSizes) (name : String) : Option Field :=
  (namedFields ts).find? (fun f => f.name == name)

/-- The members of a struct field paired with their actual word position:
`(name, byte offset from the start of the union, comment)`. -/
def layoutOf (base : Nat) (ms : List Member) : List (String × Nat × Option Nat) :=
  (ms.zip (memberOffsetsFrom (base * sizeofU32) ms)).map
    (fun p => (p.1.name, p.2, p.1.comment))

/-- Every commented member of the struct placed at word `base` starts exactly
at the word its comment names. -/
def commentsAgree (base : Nat) (ms : List Member) : Bool :=
  (layoutOf base ms).all (fun e =>
    match e.2.2 with
    | some c => e.2.1 == c * sizeofU32
    | none => true)

/-- The word at which a member of the struct placed at word `base` starts
(`none` when there is no such member or it does not start on a word). -/
def memberWord (base : Nat) (ms : List Member) (name : String) : Option Nat :=
  match (layoutOf base ms).find? (fun e => e.1 == name) with
  | some e => if e.2.1 % sizeofU32 = 0 then some (e.2.1 / sizeofU32) else none
  | none => none

/-- The register words a field covers. -/
def Field.wordRange (f : Field) : List Nat := List.range' f.offset f.words

/-- Each field ends at or before the word at which the field declared right
after it starts. -/
def declaredAscending : List Field → Bool
  | f :: g :: rest => decide (f.endWord ≤ g.offset) && declaredAscending (g :: rest)
  | _ => true

/-- No register word belongs to two of the fields. -/
def pairwiseDisjoint (fs : List Field) : Prop :=
  List.Pairwise (fun f g => ¬ f.overlaps g) fs

instance (fs : List Field) : Decidable (pairwiseDisjoint fs) := by
  unfold pairwiseDisjoint; infer_instance

/-- The register words of the special method slots, in the order
`noOperation`, `waitForIdle`, then the five members of `mme`. -/
def specialMethodSlots (ts : TypeSizes) : List (Option Nat) :=
  [ (fieldNamed ts "noOperation").map Field.offset,
    (fieldNamed ts "waitForIdle").map Field.offset,
    memberWord 0x45 (MME ts) "instructionRamPointer",
    memberWord 0x45 (MME ts) "instructionRamLoad",
    memberWord 0x45 (MME ts) "startAddressRamPointer",
    memberWord 0x45 (MME ts) "startAddressRamLoad",
    memberWord 0x45 (MME ts) "shadowRamControl" ]

/-- No type of `a` is larger, and no array longer, than in `b`. -/
def TypeSizes.le (a b : TypeSizes) : Prop :=
  a.MmeShadowRamControl ≤ b.MmeShadowRamControl ∧ a.SyncpointAction ≤ b.SyncpointAction ∧
  a.RenderTarget ≤ b.RenderTarget ∧ a.RenderTargetCount ≤ b.RenderTargetCount ∧
  a.ViewportTransform ≤ b.ViewportTransform ∧ a.ViewportCount ≤ b.ViewportCount ∧
  a.Viewport ≤ b.Viewport ∧ a.PolygonMode ≤ b.PolygonMode ∧ a.Scissor ≤ b.Scissor ∧
  a.VertexAttribute ≤ b.VertexAttribute ∧ a.RenderTargetControl ≤ b.RenderTargetControl ∧
  a.CompareOp ≤ b.CompareOp ∧ a.BlendOp ≤ b.BlendOp ∧ a.BlendFactor ≤ b.BlendFactor ∧
  a.StencilOp ≤ b.StencilOp ∧ a.MultisampleControl ≤ b.MultisampleControl ∧
  a.Address ≤ b.Address ∧ a.PointCoordReplace ≤ b.PointCoordReplace ∧
  a.FrontFace ≤ b.FrontFace ∧ a.CullFace ≤ b.CullFace ∧ a.ClearBuffers ≤ b.ClearBuffers ∧
  a.ColorWriteMask ≤ b.ColorWriteMask ∧ a.SemaphoreInfo ≤ b.SemaphoreInfo ∧ a.Blend ≤ b.Blend

instance (a b : TypeSizes) : Decidable (a.le b) := by
  unfold TypeSizes.le; infer_instance

/-- The sizes the GM20B register types have when every enum and every
one-register bitfield struct is one word, an `Address` is two words, and the
array element types have the sizes under which the arrays fill the gaps the
header leaves for them (eight render targets of 0x10 words, sixteen viewports). -/
def gm20bTypeSizes : TypeSizes where
  MmeShadowRamControl := 4
  SyncpointAction := 4
  RenderTarget := 0x40
  RenderTargetCount := 8
  ViewportTransform := 0x20
  ViewportCount := 16
  Viewport := 0x10
  PolygonMode := 4
  Scissor := 0x10
  VertexAttribute := 4
  RenderTargetControl := 4
  CompareOp := 4
  BlendOp := 4
  BlendFactor := 4
  StencilOp := 4
  MultisampleControl := 4
  Address := 8
  PointCoordReplace := 4
  FrontFace := 4
  CullFace := 4
  ClearBuffers := 4
  ColorWriteMask := 4
  SemaphoreInfo := 4
  Blend := 0x20

/-! ## The macro store and the pending macro invocation -/

/-- Number of elements of `macroCode`, a `std::array<u32, 0x2000>`. -/
def macroCodeSize : Nat := 0x2000

/-- Number of elements of `macroPositions`, a `std::array<size_t, 0x80>`. -/
def macroPositionsSize : Nat := 0x80

/-- The unnamed struct type of the member `macroInvocation`. -/
structure MacroInvocation where
  index : Int
  arguments : List Nat
  deriving DecidableEq, Repr

/-- The data members of `class Maxwell3D` whose initial value the header fixes
with an initialiser of its own. -/
structure Engine where
  macroPositions : List Nat
  macroInvocation : MacroInvocation
  macroCode : List Nat
  deriving DecidableEq, Repr

/-- The members as their initialisers leave them: `macroPositions{}` and
`macroCode{}` are value-initialised arrays (all zero), `macroInvocation{}` has
`index{-1}` and an empty vector of arguments. -/
def Engine.new : Engine where
  macroPositions := List.replicate macroPositionsSize 0
  macroInvocation := { index := -1, arguments := [] }
  macroCode := List.replicate macroCodeSize 0

/-- The instruction buffer together with the upload cursor, the register
`mme.instructionRamPointer`. -/
structure MacroStore where
  macroCode : List Nat
  instructionRamPointer : Nat
  deriving DecidableEq, Repr

/-- Modelled from the spec: the handling of a write to `mme.instructionRamLoad`
in `Maxwell3D::CallMethod`, which the header declares and whose definition is
not part of the available sources. The spec calls it `UploadInstruction(word)`:
it "appends to the circular instruction buffer at the current cursor and
advances it, wrapping silently on overflow"; the buffer is "addressed
circularly" and "writes past the end wrap to offset 0". -/
def UploadInstruction (s : MacroStore) (word : Nat) : MacroStore where
  macroCode := s.macroCode.set (s.instructionRamPointer % macroCodeSize) word
  instructionRamPointer := (s.instructionRamPointer + 1) % macroCodeSize

/-- Uploading a sequence of instruction words, one `UploadInstruction` each. -/
def uploadAll (s : MacroStore) (words : List Nat) : MacroStore :=
  words.foldl UploadInstruction s

/-! ## Semaphore release -/

/-- Modelled from the spec: the result width selected by the semaphore info
word ("one word or two"); `type::SemaphoreInfo` is declared in the absent
`maxwell/types.h`. -/
inductive StructureSize where
  | OneWord
  | TwoWords
  deriving DecidableEq, Repr

/-- Modelled from the spec: the part of `type::SemaphoreInfo` (absent
`maxwell/types.h`) that the release reads: it "encodes result width - one word
or two - and whether a timestamp must be appended". -/
structure SemaphoreInfo where
  structureSize : StructureSize
  timestampFlag : Bool
  deriving DecidableEq, Repr

/-- One call `Write(address, bytes)` on the guest memory interface: `bytes`
bytes holding the unsigned number `value` are written at `address`. -/
structure GuestWrite where
  address : Nat
  bytes : Nat
  value : Nat
  deriving DecidableEq, Repr

/-- Modelled from the spec: `Maxwell3D::WriteSemaphoreResult(u64 result)`,
declared in the header (with the note that a OneWord result is downcast to a
32-bit unsigned integer) and defined in a file that is not part of the
available sources. Per the spec: "if width is one word, write the low 32 bits
of the result to guest memory at address; if two words, write the full 64-bit
result, and if the timestamp flag is set, additionally write a monotonically
increasing hardware-tick timestamp immediately following"; the release with
width two-word and the timestamp flag "must produce exactly 12 bytes written
at X: 8-byte payload-derived result followed by a 4-byte ... tick value".
`address` and `info` are the semaphore registers, `ticks` the current tick
count; the result is the list of guest-memory writes, in order. -/
def WriteSemaphoreResult (address : Nat) (info : SemaphoreInfo) (ticks : Nat)
    (result : Nat) : List GuestWrite :=
  match info.structureSize with
  | .OneWord => [⟨address, 4, result % 2 ^ 32⟩]
  | .TwoWords =>
    ⟨address, 8, result % 2 ^ 64⟩ ::
      (if info.timestampFlag then [⟨address + 8, 4, ticks % 2 ^ 32⟩] else [])

/-- The guest addresses of the bytes that a sequence of writes stores, in the
order in which they are stored. -/
def addressesWritten (ws : List GuestWrite) : List Nat :=
  ws.flatMap (fun w => List.range' w.address w.bytes)

end Maxwell3D

/-! ## Touch input (`skyline/input/touch.cpp`) -/

namespace Input

/-- What `touch.cpp` takes from headers that are not part of the available
sources: the constant `constant::HidEntryCount`, the bit widths of the
timestamp members and of `touchCount` in `TouchScreenState`, and the default
value of the member `activated` of `TouchManager`. -/
structure HidDecls where
  HidEntryCount : Nat
  timestampBits : Nat
  touchCountBits : Nat
  activatedDefault : Bool
  deriving DecidableEq, Repr

/-- A host touch point, the element type of the argument of `SetState`
(the members `SetState` reads). -/
structure TouchScreenPoint where
  x : Int
  y : Int
  minor : Int
  major : Int
  angle : Int
  deriving DecidableEq, Repr

/-- An element of `TouchScreenState::data` (the members `SetState` assigns). -/
structure TouchScreenStateData where
  index : Nat
  positionX : Nat
  positionY : Nat
  minorAxis : Nat
  majorAxis : Nat
  angle : Int
  deriving DecidableEq, Repr

/-- An element of `section.entries`. -/
structure TouchScreenState where
  globalTimestamp : Nat
  localTimestamp : Nat
  touchCount : Nat
  data : List TouchScreenStateData
  deriving DecidableEq, Repr

/-- The member `section.header`. -/
structure CommonHeader where
  timestamp : Nat
  entryCount : Nat
  currentEntry : Nat
  maxEntry : Nat
  deriving DecidableEq, Repr

/-- The touch-screen section of the HID shared memory. -/
structure TouchScreenSection where
  header : CommonHeader
  entries : List TouchScreenState
  deriving DecidableEq, Repr

/-- The state of a `TouchManager`: the flag `activated` and the section its
reference member `section` designates. -/
structure TouchManager where
  activated : Bool
  section_ : TouchScreenSection
  deriving DecidableEq, Repr

/-- The conversion `static_cast<u32>(v)` of an integer. -/
def toU32 (v : Int) : Nat := (v % 2 ^ 32).toNat

/-- The loop of `SetState` over the points, from index `i` on: `entry.data[i]`
receives the converted point. An index outside `entry.data` has no defined
behaviour; the model stops with `none`. -/
def writePoints : Nat → List TouchScreenPoint → List TouchScreenStateData →
    Option (List TouchScreenStateData)
  | _, [], data => some data
  | i, host :: rest, data =>
    match data[i]? with
    | none => none
    | some guest =>
      writePoints (i + 1) rest
        (data.set i
          { guest with
            index := i % 2 ^ 32
            positionX := toU32 host.x
            positionY := toU32 host.y
            minorAxis := toU32 host.minor
            majorAxis := toU32 host.major
            angle := host.angle })

/-- The initialiser of the local `entryIndex` in `SetState`:
`(currentEntry != HidEntryCount - 1) ? currentEntry + 1 : 0`. -/
def entryIndex (c : HidDecls) (currentEntry : Nat) : Nat :=
  if currentEntry ≠ c.HidEntryCount - 1 then currentEntry + 1 else 0

/-- The new value of `header.entryCount` in `SetState`:
`std::min(static_cast<u8>(entryCount + 1), HidEntryCount)`. -/
def nextEntryCount (c : HidDecls) (entryCount : Nat) : Nat :=
  min ((entryCount + 1) % 2 ^ 8) c.HidEntryCount

/-- The method `TouchManager::SetState(points)`; `ticks` is the value that
`util::GetTimeTicks()` returns during the call. An access outside
`section.entries` or `entry.data` has no defined behaviour; the model stops
with `none`. -/
def SetState (c : HidDecls) (ticks : Nat) (tm : TouchManager)
    (points : List TouchScreenPoint) : Option TouchManager :=
  if !tm.activated then
    some tm
  else
    match tm.section_.entries[tm.section_.header.currentEntry]? with
    | none => none
    | some lastEntry =>
      match tm.section_.entries[entryIndex c tm.section_.header.currentEntry]? with
      | none => none
      | some entry =>
        match writePoints 0 points entry.data with
        | none => none
        | some data =>
          some
            { tm with
              section_ :=
                { header :=
                    { timestamp := ticks
                      entryCount := nextEntryCount c tm.section_.header.entryCount
                      maxEntry := nextEntryCount c tm.section_.header.entryCount
                      currentEntry := entryIndex c tm.section_.header.currentEntry }
                  entries :=
                    tm.section_.entries.set (entryIndex c tm.section_.header.currentEntry)
                      { globalTimestamp := (lastEntry.globalTimestamp + 1) % 2 ^ c.timestampBits
                        localTimestamp := (lastEntry.localTimestamp + 1) % 2 ^ c.timestampBits
                        touchCount := points.length % 2 ^ c.touchCountBits
                        data := data } } }

/-- The method `TouchManager::Activate()`. -/
def Activate (c : HidDecls) (ticks : Nat) (tm : TouchManager) : Option TouchManager :=
  if !tm.activated then
    SetState c ticks { tm with activated := true } []
  else
    some tm

/-- The constructor `TouchManager::TouchManager(state, hid)`: the members are
initialised (`section` refers to `hid->touchScreen`, `activated` has its
default value) and the body calls `Activate()`. -/
def TouchManager.new (c : HidDecls) (ticks : Nat) (sec : TouchScreenSection) :
    Option TouchManager :=
  Activate c ticks { activated := c.activatedDefault, section_ := sec }

/-- The element `section.entries[section.header.currentEntry]`, the entry that
the header designates as the current one (`none` when the index is outside
the array). -/
def TouchManager.currentEntry (tm : TouchManager) : Option TouchScreenState :=
  tm.section_.entries[tm.section_.header.currentEntry]?

/-- Consecutive calls of `SetState` on the same manager, one per element of
`calls`; an element is the tick count during the call and the points passed. -/
def SetStates (c : HidDecls) :
    TouchManager → List (Nat × List TouchScreenPoint) → Option TouchManager
  | tm, [] => some tm
  | tm, call :: rest =>
    match SetState c call.1 tm call.2 with
    | none => none
    | some tm1 => SetStates c tm1 rest

end Input

end Skyline

/-! # Theorems -/

namespace Skyline

namespace Maxwell3D

/-! ## Register layout -/

lemma foldl_max_eq_iff (l : List Nat) (a : Nat) :
    l.foldl max a = a ↔ ∀ x ∈ l, x ≤ a := by
  have key : ∀ (l : List Nat) (b : Nat), a ≤ b →
      (l.foldl max b = a ↔ (b = a ∧ ∀ x ∈ l, x ≤ a)) := by
    intro l
    induction l with
    | nil => intro b _; simp
    | cons y ys ih =>
      intro b hb
      rw [List.foldl_cons, ih (max b y) (le_trans hb (le_max_left _ _))]
      simp only [List.mem_cons, forall_eq_or_imp]
      constructor
      · rintro ⟨h1, h2⟩
        have hy : y ≤ a := h1 ▸ le_max_right b y
        have hb2 : b ≤ a := h1 ▸ le_max_left b y
        exact ⟨le_antisymm hb2 hb, hy, h2⟩
      · rintro ⟨h1, h2, h3⟩
        subst h1
        exact ⟨max_eq_left h2, h3⟩
  simpa using key l a le_rfl

lemma Field.sizeof_le_iff (f : Field) :
    f.sizeof ≤ RegisterCount * sizeofU32 ↔ f.endWord ≤ RegisterCount := by
  unfold Field.sizeof Field.endWord Field.words sizeofU32 RegisterCount
  omega

lemma staticAssertHolds_iff (ts : TypeSizes) :
    staticAssertHolds ts ↔ ∀ f ∈ namedFields ts, f.endWord ≤ RegisterCount := by
  unfold staticAssertHolds sizeofRegisters
  have h : RegisterCount * sizeofU32 = sizeofRaw := by decide
  rw [h, foldl_max_eq_iff]
  simp only [List.mem_map, forall_exists_index, and_imp, forall_apply_eq_imp_iff₂]
  rw [← h]
  exact forall₂_congr (fun f _ => f.sizeof_le_iff)

instance (ts : TypeSizes) : Decidable (staticAssertHolds ts) := by
  unfold staticAssertHolds; infer_instance

/-- C1: the raw view of `Registers` has `RegisterCount = 0xE00` words, that is
`0xE00 * 4` bytes; whatever the sizes of the types of `maxwell/types.h`, the
`static_assert` on `sizeof(Registers)` holds exactly when every named field
`Register<Offset, Type>` ends at or before word `0xE00`; and with the GM20B
type sizes both are the case: the union is exactly `RegisterCount * 4` bytes
and no named field extends past the raw array. -/
theorem registers_overlay_size :
    RegisterCount = 0xE00 ∧ sizeofRaw = 0xE00 * 4 ∧
    (∀ ts, staticAssertHolds ts ↔ ∀ f ∈ namedFields ts, f.offset + f.words ≤ RegisterCount) ∧
    sizeofRegisters gm20bTypeSizes = RegisterCount * 4 ∧
    (∀ f ∈ namedFields gm20bTypeSizes, f.offset + f.words ≤ 0xE00) := by
  refine ⟨rfl, by decide, staticAssertHolds_iff, ?_, ?_⟩
  · have h : staticAssertHolds gm20bTypeSizes := by
      rw [staticAssertHolds_iff]; decide
    exact h
  · decide

/-- C2: the word at which the packed layout places each member of `BlendState`
(base 0x4CF), compared with the comments. No choice of sizes for `Blend::Op`
and `Blend::Factor` makes every comment of `BlendState` right; with one-word
enums `alphaDestFactor` is at word 0x4D5 (comment: 0x4D6), `enableCommon` at
0x4D6 (comment: 0x4D7) and `enable[0]` at 0x4D7 (comment: 0x4D8), while the six
members before them are where their comments say. -/
theorem blendState_comments_disagree :
    (∀ ts, commentsAgree 0x4CF (BlendState ts) = false) ∧
    (∀ ts : TypeSizes, ts.BlendOp = 4 → ts.BlendFactor = 4 →
      memberWord 0x4CF (BlendState ts) "seperateAlpha" = some 0x4CF ∧
      memberWord 0x4CF (BlendState ts) "colorOp" = some 0x4D0 ∧
      memberWord 0x4CF (BlendState ts) "colorSrcFactor" = some 0x4D1 ∧
      memberWord 0x4CF (BlendState ts) "colorDestFactor" = some 0x4D2 ∧
      memberWord 0x4CF (BlendState ts) "alphaOp" = some 0x4D3 ∧
      memberWord 0x4CF (BlendState ts) "alphaSrcFactor" = some 0x4D4 ∧
      memberWord 0x4CF (BlendState ts) "alphaDestFactor" = some 0x4D5 ∧
      memberWord 0x4CF (BlendState ts) "enableCommon" = some 0x4D6 ∧
      memberWord 0x4CF (BlendState ts) "enable" = some 0x4D7) := by
  constructor
  · intro ts
    by_contra h
    rw [Bool.not_eq_false] at h
    simp [commentsAgree, layoutOf, BlendState, memberOffsetsFrom, sizeofU32] at h
    omega
  · intro ts h1 h2
    simp [memberWord, layoutOf, BlendState, memberOffsetsFrom, sizeofU32, sizeofArray, h1, h2]

/-- The comments of the nine other commented structs are right: with one-word
enums and a two-word `Address`, every member of `MME`, `PolygonMode`,
`StencilBackExtra`, `BlendConstant`, `StencilFront`, `SamplerPool`,
`TexturePool`, `StencilBack` and `Semaphore` starts at the word its comment
names. -/
theorem other_comments_agree (ts : TypeSizes) (hP : ts.PolygonMode = 4)
    (hS : ts.StencilOp = 4) (hC : ts.CompareOp = 4) (hA : ts.Address = 8) :
    commentsAgree 0x45 (MME ts) = true ∧
    commentsAgree 0x36B (PolygonMode ts) = true ∧
    commentsAgree 0x3D5 StencilBackExtra = true ∧
    commentsAgree 0x4C7 BlendConstant = true ∧
    commentsAgree 0x4E1 (StencilFront ts) = true ∧
    commentsAgree 0x557 (SamplerPool ts) = true ∧
    commentsAgree 0x55D (TexturePool ts) = true ∧
    commentsAgree 0x566 (StencilBack ts) = true ∧
    commentsAgree 0x6C0 (Semaphore ts) = true := by
  simp [commentsAgree, layoutOf, MME, PolygonMode, StencilBackExtra, BlendConstant,
    StencilFront, SamplerPool, TexturePool, StencilBack, Semaphore, memberOffsetsFrom,
    sizeofU32, sizeofI32, sizeofFloat, hP, hS, hC, hA]

theorem other_comments_agree_witness :
    commentsAgree 0x4E1 (StencilFront gm20bTypeSizes) = true :=
  (other_comments_agree gm20bTypeSizes rfl rfl rfl rfl).2.2.2.2.1

/-- C3: with a two-word `Address` and a one-word `SemaphoreInfo` the semaphore
group is the four consecutive words 0x6C0..0x6C3: `address` at 0x6C0 (two
words), `payload` at 0x6C2, `info` at 0x6C3, which is the last word of the
group; and when no type of `maxwell/types.h` is larger than its GM20B size, the
group shares no word with any other named register field. -/
theorem semaphore_group (ts : TypeSizes) (hA : ts.Address = 8) (hI : ts.SemaphoreInfo = 4)
    (hle : ts.le gm20bTypeSizes) :
    fieldNamed ts "semaphore" = some ⟨"semaphore", 0x6C0, 16⟩ ∧
    Field.wordRange ⟨"semaphore", 0x6C0, 16⟩ = [0x6C0, 0x6C1, 0x6C2, 0x6C3] ∧
    memberWord 0x6C0 (Semaphore ts) "address" = some 0x6C0 ∧
    memberWord 0x6C0 (Semaphore ts) "payload" = some 0x6C2 ∧
    memberWord 0x6C0 (Semaphore ts) "info" = some 0x6C3 ∧
    (Field.wordRange ⟨"semaphore", 0x6C0, 16⟩).getLast? = some 0x6C3 ∧
    (∀ f ∈ namedFields ts, f.name ≠ "semaphore" →
      ¬ f.overlaps ⟨"semaphore", 0x6C0, 16⟩) := by
  refine ⟨?_, by decide, ?_, ?_, ?_, by decide, ?_⟩
  · simp [fieldNamed, namedFields, Semaphore, sizeofStruct, sizeofU32, hA, hI]
  · simp [memberWord, layoutOf, Semaphore, memberOffsetsFrom, sizeofU32]
  · simp [memberWord, layoutOf, Semaphore, memberOffsetsFrom, sizeofU32, hA]
  · simp [memberWord, layoutOf, Semaphore, memberOffsetsFrom, sizeofU32, hA]
  · obtain ⟨h1, h2, h3, h4, h5, h6, h7, h8, h9, h10, h11, h12, h13, h14, h15, h16, h17,
      h18, h19, h20, h21, h22, h23, h24⟩ := hle
    simp only [gm20bTypeSizes] at h1 h2 h3 h4 h5 h6 h7 h8 h9 h10 h11 h12
    simp only [gm20bTypeSizes] at h13 h14 h15 h16 h17 h18 h19 h20 h21 h22 h23 h24
    have a1 : ts.RenderTargetCount * ts.RenderTarget ≤ 8 * 0x40 := Nat.mul_le_mul h4 h3
    have a2 : ts.ViewportCount * ts.ViewportTransform ≤ 16 * 0x20 := Nat.mul_le_mul h6 h5
    have a3 : ts.ViewportCount * ts.Viewport ≤ 16 * 0x10 := Nat.mul_le_mul h6 h7
    have a4 : ts.ViewportCount * ts.Scissor ≤ 16 * 0x10 := Nat.mul_le_mul h6 h9
    have a5 : ts.RenderTargetCount * ts.ColorWriteMask ≤ 8 * 4 := Nat.mul_le_mul h4 h22
    intro f hf hname
    simp only [namedFields, List.mem_cons, List.mem_singleton, List.not_mem_nil, or_false] at hf
    rcases hf with rfl | rfl | rfl | rfl | rfl | rfl | rfl | rfl | rfl | rfl | rfl | rfl | rfl |
      rfl | rfl | rfl | rfl | rfl | rfl | rfl | rfl | rfl | rfl | rfl | rfl | rfl | rfl | rfl |
      rfl | rfl | rfl | rfl | rfl | rfl | rfl | rfl | rfl | rfl | rfl | rfl | rfl | rfl | rfl |
      rfl | rfl | rfl | rfl | rfl | rfl | rfl | rfl | rfl | rfl | rfl | rfl | rfl <;>
    first
    | exact absurd rfl hname
    | (simp only [Field.overlaps, Field.endWord, Field.words, sizeofStruct, sizeofArray,
        sizeofU32, sizeofI32, sizeofU16, sizeofFloat, MME, PolygonMode, StencilBackExtra,
        TiledCacheSize, BlendConstant, BlendState, StencilFront, SamplerPool, TexturePool,
        StencilBack, List.map_cons, List.map_nil, List.sum_cons, List.sum_nil]
       omega)

theorem semaphore_group_witness :
    Field.wordRange ⟨"semaphore", 0x6C0, 16⟩ = [0x6C0, 0x6C1, 0x6C2, 0x6C3] :=
  (semaphore_group gm20bTypeSizes rfl rfl (by decide)).2.1

/-- C4: `noOperation` is word 0x40, `waitForIdle` word 0x44 and the members of
`mme` are at the words 0x45..0x49 in the order `instructionRamPointer`,
`instructionRamLoad`, `startAddressRamPointer`, `startAddressRamLoad`,
`shadowRamControl`; these seven words are pairwise distinct, and with a
one-word `MmeShadowRamControl` the field `mme` is exactly the five consecutive
words 0x45..0x49. -/
theorem special_method_slots (ts : TypeSizes) (h : ts.MmeShadowRamControl = 4) :
    specialMethodSlots ts =
      [some 0x40, some 0x44, some 0x45, some 0x46, some 0x47, some 0x48, some 0x49] ∧
    (specialMethodSlots ts).Nodup ∧
    (fieldNamed ts "mme").map Field.wordRange = some [0x45, 0x46, 0x47, 0x48, 0x49] := by
  have hs : specialMethodSlots ts =
      [some 0x40, some 0x44, some 0x45, some 0x46, some 0x47, some 0x48, some 0x49] := by
    simp [specialMethodSlots, fieldNamed, namedFields, memberWord, layoutOf, MME,
      memberOffsetsFrom, sizeofU32]
  refine ⟨hs, ?_, ?_⟩
  · rw [hs]; decide
  · simp [fieldNamed, namedFields, MME, sizeofStruct, sizeofU32, h, Field.wordRange,
      Field.words, List.range']

theorem special_method_slots_witness :
    (specialMethodSlots gm20bTypeSizes).Nodup :=
  (special_method_slots gm20bTypeSizes rfl).2.1

lemma declaredAscending_split (a b : Field) (post : List Field) :
    ∀ pre : List Field, declaredAscending (pre ++ a :: b :: post) = true →
      a.endWord ≤ b.offset := by
  intro pre
  induction pre with
  | nil =>
    intro h
    simp only [List.nil_append, declaredAscending, Bool.and_eq_true, decide_eq_true_eq] at h
    exact h.1
  | cons p ps ih =>
    intro h
    cases ps with
    | nil =>
      simp only [List.cons_append, List.nil_append, declaredAscending, Bool.and_eq_true] at h
      exact ih (by simpa [declaredAscending] using h.2)
    | cons q qs =>
      simp only [List.cons_append, declaredAscending, Bool.and_eq_true] at h
      exact ih (by simpa using h.2)

/-- C10: the declaration right after `lineWidthSmooth` (word 0x4EC, one word)
is `lineWidthAliased` at word 0x4D, below 0x4ED, so for no sizes of the types
are the named fields declared in ascending order; it is the only such pair
(without `lineWidthAliased` the GM20B layout is ascending), and the word 0x4D
belongs to no other field: the GM20B layout is pairwise disjoint. -/
theorem lineWidthAliased_breaks_order :
    (∀ ts, ∃ pre post, namedFields ts =
      pre ++ ⟨"lineWidthSmooth", 0x4EC, 4⟩ :: ⟨"lineWidthAliased", 0x4D, 4⟩ :: post) ∧
    Field.endWord ⟨"lineWidthSmooth", 0x4EC, 4⟩ = 0x4ED ∧
    (∀ ts, declaredAscending (namedFields ts) = false) ∧
    declaredAscending
      ((namedFields gm20bTypeSizes).filter (fun f => f.name != "lineWidthAliased")) = true ∧
    pairwiseDisjoint (namedFields gm20bTypeSizes) := by
  have hsplit : ∀ ts, ∃ pre post, namedFields ts =
      pre ++ ⟨"lineWidthSmooth", 0x4EC, 4⟩ :: ⟨"lineWidthAliased", 0x4D, 4⟩ :: post := by
    intro ts
    exact ⟨(namedFields ts).take 26, (namedFields ts).drop 28, rfl⟩
  refine ⟨hsplit, by decide, ?_, by decide, by decide⟩
  intro ts
  obtain ⟨pre, post, hpp⟩ := hsplit ts
  by_contra hasc
  rw [Bool.not_eq_false, hpp] at hasc
  exact absurd (declaredAscending_split _ _ post pre hasc) (by decide)

/-! ## Macro store -/

/-- C5: the instruction buffer `macroCode` holds exactly 0x2000 words and the
positions table `macroPositions` exactly 128 (0x80) slots, each initially 0;
an index is a valid slot index exactly when it is below 128. -/
theorem macro_store_sizes :
    Engine.new.macroCode.length = 0x2000 ∧
    Engine.new.macroPositions.length = 128 ∧
    (∀ i, i < 128 → Engine.new.macroPositions[i]? = some 0) ∧
    (∀ i, 128 ≤ i → Engine.new.macroPositions[i]? = none) := by
  have hc : Engine.new.macroCode.length = 0x2000 := List.length_replicate _ _
  have hp : Engine.new.macroPositions.length = 128 := List.length_replicate _ _
  refine ⟨hc, hp, ?_, ?_⟩
  · intro i hi
    show (List.replicate macroPositionsSize 0)[i]? = some 0
    rw [List.getElem?_replicate, if_pos (by unfold macroPositionsSize; omega)]
  · intro i hi
    rw [List.getElem?_eq_none_iff, hp]
    exact hi

/-- C8: a newly constructed engine has no pending macro invocation: the index is
-1, which is the index of none of the 128 slots of the positions table, and the
argument vector is empty. -/
theorem macroInvocation_initially_idle :
    Engine.new.macroInvocation.index = -1 ∧
    (∀ i : Nat, i < Engine.new.macroPositions.length →
      (i : Int) ≠ Engine.new.macroInvocation.index) ∧
    Engine.new.macroInvocation.arguments = [] := by
  refine ⟨rfl, ?_, rfl⟩
  intro i _
  simp only [Engine.new]
  omega

lemma uploadAll_append (s : MacroStore) (ws : List Nat) (w : Nat) :
    uploadAll s (ws ++ [w]) = UploadInstruction (uploadAll s ws) w := by
  simp [uploadAll, List.foldl_append]

lemma uploadAll_length (s : MacroStore) (ws : List Nat) :
    (uploadAll s ws).macroCode.length = s.macroCode.length := by
  induction ws using List.reverseRecOn with
  | nil => rfl
  | append_singleton l a ih =>
    rw [uploadAll_append]
    simp only [UploadInstruction, List.length_set]
    exact ih

lemma uploadAll_pointer (s : MacroStore) (ws : List Nat) :
    (uploadAll s ws).instructionRamPointer % macroCodeSize =
      (s.instructionRamPointer + ws.length) % macroCodeSize := by
  induction ws using List.reverseRecOn with
  | nil => rfl
  | append_singleton l a ih =>
    rw [uploadAll_append]
    simp only [UploadInstruction, List.length_append, List.length_singleton]
    unfold macroCodeSize at ih ⊢
    omega

lemma uploadAll_untouched (s : MacroStore) (ws : List Nat) (j : Nat)
    (hj : ∀ k, k < ws.length → (s.instructionRamPointer + k) % macroCodeSize ≠ j) :
    (uploadAll s ws).macroCode[j]? = s.macroCode[j]? := by
  induction ws using List.reverseRecOn with
  | nil => rfl
  | append_singleton l a ih =>
    rw [uploadAll_append]
    have hl : ∀ k, k < l.length → (s.instructionRamPointer + k) % macroCodeSize ≠ j := by
      intro k hk
      exact hj k (by simp only [List.length_append, List.length_singleton]; omega)
    have hn := hj l.length (by simp)
    rw [← uploadAll_pointer] at hn
    simp only [UploadInstruction]
    rw [List.getElem?_set_ne hn]
    exact ih hl

lemma uploadAll_content (s : MacroStore) (hlen : s.macroCode.length = macroCodeSize)
    (ws : List Nat) :
    ∀ k, k < ws.length →
      (uploadAll s ws).macroCode[(s.instructionRamPointer + k) % macroCodeSize]? =
        ws[k + macroCodeSize * ((ws.length - 1 - k) / macroCodeSize)]? := by
  induction ws using List.reverseRecOn with
  | nil => intro k hk; simp at hk
  | append_singleton l a ih =>
    intro k hk
    rw [uploadAll_append]
    simp only [List.length_append, List.length_singleton] at hk ⊢
    have hptr := uploadAll_pointer s l
    have hsz : (uploadAll s l).macroCode.length = macroCodeSize := by
      rw [uploadAll_length, hlen]
    simp only [UploadInstruction]
    by_cases hsame : (uploadAll s l).instructionRamPointer % macroCodeSize =
        (s.instructionRamPointer + k) % macroCodeSize
    · have hidx : k + macroCodeSize * ((l.length + 1 - 1 - k) / macroCodeSize) = l.length := by
        rw [hptr] at hsame
        unfold macroCodeSize at hsame ⊢
        omega
      rw [hidx, ← hsame, List.getElem?_set_eq_of_lt]
      · simp
      · rw [hsz]; exact Nat.mod_lt _ (by decide)
    · have hk2 : k < l.length := by
        rcases Nat.lt_succ_iff_lt_or_eq.mp hk with h | h
        · exact h
        · exact absurd (by rw [hptr, h]) hsame
      have hidx : k + macroCodeSize * ((l.length + 1 - 1 - k) / macroCodeSize) =
          k + macroCodeSize * ((l.length - 1 - k) / macroCodeSize) := by
        rw [hptr] at hsame
        unfold macroCodeSize at hsame ⊢
        omega
      have hlt : k + macroCodeSize * ((l.length - 1 - k) / macroCodeSize) < l.length := by
        unfold macroCodeSize
        omega
      rw [hidx, List.getElem?_set_ne hsame, ih k hk2, List.getElem?_append_left hlt]

/-- C6: uploading to the macro store is circular. One upload with the cursor at
`c` stores the word at `macroCode[c mod 0x2000]`, changes no other cell and
leaves the cursor at `(c + 1) mod 0x2000`. After uploading the words `ws` the
buffer still has 0x2000 cells; the cell reached by the `k`-th word holds the
last word that was uploaded to it, so the last 0x2000 words are all in the
buffer, a word followed by 0x2000 or more later words has been replaced by a
later one (the earliest words go first), and every cell no upload reached is
unchanged. -/
theorem upload_is_circular (s : MacroStore) (hlen : s.macroCode.length = macroCodeSize)
    (w : Nat) (ws : List Nat) :
    macroCodeSize = 0x2000 ∧
    (UploadInstruction s w).macroCode[s.instructionRamPointer % 0x2000]? = some w ∧
    (∀ j, j ≠ s.instructionRamPointer % 0x2000 →
      (UploadInstruction s w).macroCode[j]? = s.macroCode[j]?) ∧
    (UploadInstruction s w).instructionRamPointer = (s.instructionRamPointer + 1) % 0x2000 ∧
    (uploadAll s ws).macroCode.length = 0x2000 ∧
    (uploadAll s ws).instructionRamPointer % 0x2000 =
      (s.instructionRamPointer + ws.length) % 0x2000 ∧
    (∀ k, k < ws.length → ws.length ≤ k + 0x2000 →
      (uploadAll s ws).macroCode[(s.instructionRamPointer + k) % 0x2000]? = ws[k]?) ∧
    (∀ k, k + 0x2000 < ws.length →
      k + 0x2000 ≤ k + 0x2000 * ((ws.length - 1 - k) / 0x2000) ∧
      k + 0x2000 * ((ws.length - 1 - k) / 0x2000) < ws.length ∧
      (uploadAll s ws).macroCode[(s.instructionRamPointer + k) % 0x2000]? =
        ws[k + 0x2000 * ((ws.length - 1 - k) / 0x2000)]?) ∧
    (∀ j, (∀ k, k < ws.length → (s.instructionRamPointer + k) % 0x2000 ≠ j) →
      (uploadAll s ws).macroCode[j]? = s.macroCode[j]?) := by
  have hM : macroCodeSize = 0x2000 := rfl
  refine ⟨hM, ?_, ?_, rfl, ?_, ?_, ?_, ?_, ?_⟩
  · show (s.macroCode.set (s.instructionRamPointer % macroCodeSize) w)[_]? = _
    rw [hM, List.getElem?_set_eq_of_lt]
    rw [hlen, hM]; omega
  · intro j hj
    show (s.macroCode.set (s.instructionRamPointer % macroCodeSize) w)[_]? = _
    rw [hM, List.getElem?_set_ne (Ne.symm hj)]
  · rw [uploadAll_length, hlen, hM]
  · exact uploadAll_pointer s ws
  · intro k hk hle
    have h := uploadAll_content s hlen ws k hk
    have hz : (ws.length - 1 - k) / macroCodeSize = 0 := by
      unfold macroCodeSize; omega
    rw [hz] at h
    simpa [hM] using h
  · intro k hk
    have h := uploadAll_content s hlen ws k (by omega)
    rw [hM] at h
    refine ⟨?_, ?_, h⟩ <;> omega
  · intro j hj
    exact uploadAll_untouched s ws j hj

theorem upload_is_circular_witness :
    (UploadInstruction ⟨List.replicate macroCodeSize 0, 0x2001⟩ 7).macroCode[0x2001 % 0x2000]? =
      some 7 :=
  (upload_is_circular ⟨List.replicate macroCodeSize 0, 0x2001⟩ (List.length_replicate _ _)
    7 []).2.1

/-! ## Semaphore release -/

/-- C7: for every 64-bit result, a one-word semaphore writes exactly the low 32
bits of the result (`result mod 2^32`) as the 4 bytes at the semaphore address;
a two-word semaphore writes the full 64-bit result as the 8 bytes there,
followed, when the timestamp flag is set, by a 4-byte tick value in the bytes
right after it (12 bytes in all, contiguous from the address), and by nothing
otherwise. Every value written fits the bytes it is written to, and the first
write is always at the semaphore address and agrees with the result in its low
32 bits. -/
theorem writeSemaphoreResult_width (address ticks result : Nat) (info : SemaphoreInfo)
    (h : result < 2 ^ 64) :
    (info.structureSize = .OneWord →
      WriteSemaphoreResult address info ticks result = [⟨address, 4, result % 2 ^ 32⟩] ∧
      addressesWritten (WriteSemaphoreResult address info ticks result) =
        List.range' address 4) ∧
    (info.structureSize = .TwoWords → info.timestampFlag = false →
      WriteSemaphoreResult address info ticks result = [⟨address, 8, result⟩] ∧
      addressesWritten (WriteSemaphoreResult address info ticks result) =
        List.range' address 8) ∧
    (info.structureSize = .TwoWords → info.timestampFlag = true →
      WriteSemaphoreResult address info ticks result =
        [⟨address, 8, result⟩, ⟨address + 8, 4, ticks % 2 ^ 32⟩] ∧
      addressesWritten (WriteSemaphoreResult address info ticks result) =
        List.range' address 12) ∧
    (∀ w ∈ WriteSemaphoreResult address info ticks result, w.value < 2 ^ (8 * w.bytes)) ∧
    (∀ w, (WriteSemaphoreResult address info ticks result).head? = some w →
      w.address = address ∧ w.value % 2 ^ 32 = result % 2 ^ 32) := by
  have hr : result % 2 ^ 64 = result := Nat.mod_eq_of_lt h
  have h32 : result % 2 ^ 32 < 2 ^ (8 * 4) := Nat.mod_lt _ (by norm_num)
  have ht : ticks % 2 ^ 32 < 2 ^ (8 * 4) := Nat.mod_lt _ (by norm_num)
  have h64 : result < 2 ^ (8 * 8) := h
  have e1 : info.structureSize = .OneWord →
      WriteSemaphoreResult address info ticks result = [⟨address, 4, result % 2 ^ 32⟩] := by
    intro h1
    simp only [WriteSemaphoreResult, h1]
  have e2 : info.structureSize = .TwoWords → info.timestampFlag = false →
      WriteSemaphoreResult address info ticks result = [⟨address, 8, result⟩] := by
    intro h1 h2
    simp only [WriteSemaphoreResult, h1, h2, hr]
    rfl
  have e3 : info.structureSize = .TwoWords → info.timestampFlag = true →
      WriteSemaphoreResult address info ticks result =
        [⟨address, 8, result⟩, ⟨address + 8, 4, ticks % 2 ^ 32⟩] := by
    intro h1 h2
    simp only [WriteSemaphoreResult, h1, h2, hr]
    rfl
  refine ⟨fun h1 => ⟨e1 h1, ?_⟩, fun h1 h2 => ⟨e2 h1 h2, ?_⟩, fun h1 h2 => ⟨e3 h1 h2, ?_⟩,
    ?_, ?_⟩
  · rw [e1 h1]
    simp [addressesWritten]
  · rw [e2 h1 h2]
    simp [addressesWritten]
  · rw [e3 h1 h2]
    simp only [addressesWritten, List.flatMap_cons, List.flatMap_nil, List.append_nil]
    exact List.range'_append_1 address 8 4
  · intro w hw
    cases hs : info.structureSize with
    | OneWord =>
      rw [e1 hs, List.mem_singleton] at hw
      rw [hw]
      exact h32
    | TwoWords =>
      cases hf : info.timestampFlag with
      | false =>
        rw [e2 hs hf, List.mem_singleton] at hw
        rw [hw]
        exact h64
      | true =>
        rw [e3 hs hf] at hw
        simp only [List.mem_cons, List.mem_singleton, List.not_mem_nil, or_false] at hw
        rcases hw with hw | hw
        · rw [hw]
          exact h64
        · rw [hw]
          exact ht
  · intro w hw
    cases hs : info.structureSize with
    | OneWord =>
      rw [e1 hs] at hw
      cases hw
      exact ⟨rfl, Nat.mod_mod _ _⟩
    | TwoWords =>
      cases hf : info.timestampFlag with
      | false =>
        rw [e2 hs hf] at hw
        cases hw
        exact ⟨rfl, rfl⟩
      | true =>
        rw [e3 hs hf] at hw
        cases hw
        exact ⟨rfl, rfl⟩

theorem writeSemaphoreResult_width_witness :
    WriteSemaphoreResult 0x1000 ⟨.TwoWords, true⟩ 0x100000005 0x1234 =
        [⟨0x1000, 8, 0x1234⟩, ⟨0x1000 + 8, 4, 0x100000005 % 2 ^ 32⟩] ∧
      addressesWritten (WriteSemaphoreResult 0x1000 ⟨.TwoWords, true⟩ 0x100000005 0x1234) =
        List.range' 0x1000 12 :=
  (writeSemaphoreResult_width 0x1000 0x100000005 0x1234 ⟨.TwoWords, true⟩ (by decide)).2.2.1
    rfl rfl

end Maxwell3D

/-! ## Touch input -/

namespace Input

lemma entryIndex_lt (c : HidDecls) (cur : Nat) (h : cur < c.HidEntryCount) :
    entryIndex c cur < c.HidEntryCount := by
  unfold entryIndex
  split <;> omega

lemma SetState_inactive (c : HidDecls) (ticks : Nat) (tm : TouchManager)
    (points : List TouchScreenPoint) (h : tm.activated = false) :
    SetState c ticks tm points = some tm := by
  simp [SetState, h]

lemma SetState_activated (c : HidDecls) (ticks : Nat) (tm : TouchManager)
    (points : List TouchScreenPoint) (lastEntry entry : TouchScreenState)
    (data : List TouchScreenStateData) (hact : tm.activated = true)
    (hlast : tm.section_.entries[tm.section_.header.currentEntry]? = some lastEntry)
    (hentry : tm.section_.entries[entryIndex c tm.section_.header.currentEntry]? = some entry)
    (hdata : writePoints 0 points entry.data = some data) :
    SetState c ticks tm points = some
      { activated := true
        section_ :=
          { header :=
              { timestamp := ticks
                entryCount := nextEntryCount c tm.section_.header.entryCount
                maxEntry := nextEntryCount c tm.section_.header.entryCount
                currentEntry := entryIndex c tm.section_.header.currentEntry }
            entries :=
              tm.section_.entries.set (entryIndex c tm.section_.header.currentEntry)
                { globalTimestamp := (lastEntry.globalTimestamp + 1) % 2 ^ c.timestampBits
                  localTimestamp := (lastEntry.localTimestamp + 1) % 2 ^ c.timestampBits
                  touchCount := points.length % 2 ^ c.touchCountBits
                  data := data } } } := by
  simp [SetState, hact, hlast, hentry, hdata]

/-- C9: the touch screen is activated by default. For a manager constructed
over a section whose `entries` array has `HidEntryCount` elements and whose
`currentEntry` is an index of it (the member `activated` starting out false),
construction succeeds, the flag is true, the section is the one that a single
`SetState` with no points produces, the entry at the new current index has
`touchCount` 0, and a later `Activate` changes neither flag nor section. -/
theorem touch_activated_by_default (c : HidDecls) (ticks : Nat) (sec : TouchScreenSection)
    (hdef : c.activatedDefault = false)
    (hlen : sec.entries.length = c.HidEntryCount)
    (hcur : sec.header.currentEntry < c.HidEntryCount) :
    ∃ tm, TouchManager.new c ticks sec = some tm ∧
      tm.activated = true ∧
      SetState c ticks ⟨true, sec⟩ [] = some tm ∧
      tm.section_.header.currentEntry = entryIndex c sec.header.currentEntry ∧
      (∃ e, tm.section_.entries[tm.section_.header.currentEntry]? = some e ∧ e.touchCount = 0) ∧
      (∀ ticks2, Activate c ticks2 tm = some tm) := by
  have h1 : sec.header.currentEntry < sec.entries.length := hlen ▸ hcur
  have h2 : entryIndex c sec.header.currentEntry < sec.entries.length :=
    hlen ▸ entryIndex_lt c _ hcur
  have hS := SetState_activated c ticks ⟨true, sec⟩ [] sec.entries[sec.header.currentEntry]
    sec.entries[entryIndex c sec.header.currentEntry] _ rfl
    (List.getElem?_eq_getElem h1) (List.getElem?_eq_getElem h2) rfl
  refine ⟨_, ?_, ?_, hS, rfl, ?_, ?_⟩
  · simp only [TouchManager.new, Activate, hdef]
    exact hS
  · rfl
  · refine ⟨_, List.getElem?_set_eq_of_lt _ h2, ?_⟩
    simp
  · intro ticks2
    simp [Activate]

theorem touch_activated_by_default_witness :
    ∃ tm, TouchManager.new ⟨2, 64, 64, false⟩ 9 ⟨⟨0, 0, 1, 0⟩, [⟨0, 0, 0, []⟩, ⟨5, 6, 3, []⟩]⟩ =
        some tm ∧
      tm.activated = true ∧
      SetState ⟨2, 64, 64, false⟩ 9 ⟨true, ⟨⟨0, 0, 1, 0⟩, [⟨0, 0, 0, []⟩, ⟨5, 6, 3, []⟩]⟩⟩ [] =
        some tm ∧
      tm.section_.header.currentEntry = entryIndex ⟨2, 64, 64, false⟩ 1 ∧
      (∃ e, tm.section_.entries[tm.section_.header.currentEntry]? = some e ∧ e.touchCount = 0) ∧
      (∀ ticks2, Activate ⟨2, 64, 64, false⟩ ticks2 tm = some tm) :=
  touch_activated_by_default ⟨2, 64, 64, false⟩ 9
    ⟨⟨0, 0, 1, 0⟩, [⟨0, 0, 0, []⟩, ⟨5, 6, 3, []⟩]⟩ rfl rfl (by decide)

lemma writePoints_spec (points : List TouchScreenPoint) :
    ∀ (i : Nat) (data : List TouchScreenStateData), i + points.length ≤ data.length →
      ∃ out, writePoints i points data = some out ∧ out.length = data.length ∧
        (∀ j (hj : j < points.length), out[i + j]? = some
          { index := (i + j) % 2 ^ 32
            positionX := toU32 points[j].x
            positionY := toU32 points[j].y
            minorAxis := toU32 points[j].minor
            majorAxis := toU32 points[j].major
            angle := points[j].angle }) ∧
        (∀ k, k < i ∨ i + points.length ≤ k → out[k]? = data[k]?) := by
  induction points with
  | nil =>
    intro i data _
    exact ⟨data, rfl, rfl, fun j hj => absurd hj (Nat.not_lt_zero j), fun _ _ => rfl⟩
  | cons host rest ih =>
    intro i data hlen
    simp only [List.length_cons] at hlen
    have hi : i < data.length := by omega
    obtain ⟨out, hout, hlen2, hset, hkeep⟩ :=
      ih (i + 1) (data.set i
        { data[i] with
          index := i % 2 ^ 32
          positionX := toU32 host.x
          positionY := toU32 host.y
          minorAxis := toU32 host.minor
          majorAxis := toU32 host.major
          angle := host.angle }) (by rw [List.length_set]; omega)
    refine ⟨out, ?_, ?_, ?_, ?_⟩
    · simp only [writePoints, List.getElem?_eq_getElem hi]
      exact hout
    · rw [hlen2, List.length_set]
    · intro j hj
      cases j with
      | zero =>
        rw [Nat.add_zero, hkeep i (Or.inl (Nat.lt_succ_self i)),
          List.getElem?_set_eq_of_lt _ hi]
        rfl
      | succ j =>
        have hj2 : j < rest.length := by
          simp only [List.length_cons] at hj; omega
        have h := hset j hj2
        rw [show i + 1 + j = i + (j + 1) by omega] at h
        rw [h]
        rfl
    · intro k hk
      simp only [List.length_cons] at hk
      have hne : i ≠ k := by omega
      rw [hkeep k (by omega), List.getElem?_set_ne hne]

lemma SetState_spec (c : HidDecls) (ticks : Nat) (tm : TouchManager)
    (points : List TouchScreenPoint) (hact : tm.activated = true)
    (hlen : tm.section_.entries.length = c.HidEntryCount)
    (hcur : tm.section_.header.currentEntry < c.HidEntryCount)
    (hfit : ∀ e, tm.section_.entries[entryIndex c tm.section_.header.currentEntry]? = some e →
      points.length ≤ e.data.length) :
    ∃ lastEntry entry data,
      tm.section_.entries[tm.section_.header.currentEntry]? = some lastEntry ∧
      tm.section_.entries[entryIndex c tm.section_.header.currentEntry]? = some entry ∧
      writePoints 0 points entry.data = some data ∧
      SetState c ticks tm points = some
        { activated := true
          section_ :=
            { header :=
                { timestamp := ticks
                  entryCount := nextEntryCount c tm.section_.header.entryCount
                  maxEntry := nextEntryCount c tm.section_.header.entryCount
                  currentEntry := entryIndex c tm.section_.header.currentEntry }
              entries :=
                tm.section_.entries.set (entryIndex c tm.section_.header.currentEntry)
                  { globalTimestamp := (lastEntry.globalTimestamp + 1) % 2 ^ c.timestampBits
                    localTimestamp := (lastEntry.localTimestamp + 1) % 2 ^ c.timestampBits
                    touchCount := points.length % 2 ^ c.touchCountBits
                    data := data } } } := by
  have h1 : tm.section_.header.currentEntry < tm.section_.entries.length := hlen ▸ hcur
  have h2 : entryIndex c tm.section_.header.currentEntry < tm.section_.entries.length :=
    hlen ▸ entryIndex_lt c _ hcur
  have hentry := List.getElem?_eq_getElem h2
  obtain ⟨data, hdata, -⟩ := writePoints_spec points 0
    (tm.section_.entries[entryIndex c tm.section_.header.currentEntry]).data
    (by simpa using hfit _ hentry)
  exact ⟨_, _, data, List.getElem?_eq_getElem h1, hentry, hdata,
    SetState_activated c ticks tm points _ _ data hact (List.getElem?_eq_getElem h1) hentry hdata⟩

lemma entryIndex_eq_mod (c : HidDecls) (cur : Nat) (h : cur < c.HidEntryCount) :
    entryIndex c cur = (cur + 1) % c.HidEntryCount := by
  unfold entryIndex
  split
  · rw [Nat.mod_eq_of_lt (by omega)]
  · have : cur + 1 = c.HidEntryCount := by omega
    rw [this, Nat.mod_self]

/-- C11: `SetState` on an activated manager advances the ring index circularly.
For a section whose `entries` array has `HidEntryCount` elements and whose
`currentEntry` is below `HidEntryCount` (the points fitting the data array of
the entry written), the call returns, the new `currentEntry` is
`(old + 1) mod HidEntryCount`, that is `old + 1`, or 0 when `old` is
`HidEntryCount - 1`; it is again below `HidEntryCount`, and both the entry read
(index `old`) and the entry written (the new index) are indices of `entries`,
which keeps its length. -/
theorem setState_ring_index (c : HidDecls) (ticks : Nat) (tm : TouchManager)
    (points : List TouchScreenPoint) (hact : tm.activated = true)
    (hlen : tm.section_.entries.length = c.HidEntryCount)
    (hcur : tm.section_.header.currentEntry < c.HidEntryCount)
    (hfit : ∀ e, tm.section_.entries[entryIndex c tm.section_.header.currentEntry]? = some e →
      points.length ≤ e.data.length) :
    ∃ tm1, SetState c ticks tm points = some tm1 ∧
      tm1.section_.header.currentEntry =
        (tm.section_.header.currentEntry + 1) % c.HidEntryCount ∧
      (tm.section_.header.currentEntry ≠ c.HidEntryCount - 1 →
        tm1.section_.header.currentEntry = tm.section_.header.currentEntry + 1) ∧
      (tm.section_.header.currentEntry = c.HidEntryCount - 1 →
        tm1.section_.header.currentEntry = 0) ∧
      tm1.section_.header.currentEntry < c.HidEntryCount ∧
      tm.section_.header.currentEntry < tm.section_.entries.length ∧
      tm1.section_.header.currentEntry < tm.section_.entries.length ∧
      tm1.section_.entries.length = c.HidEntryCount := by
  obtain ⟨lastEntry, entry, data, -, -, -, hS⟩ := SetState_spec c ticks tm points hact hlen hcur hfit
  refine ⟨_, hS, entryIndex_eq_mod c _ hcur, ?_, ?_, entryIndex_lt c _ hcur, hlen ▸ hcur,
    hlen ▸ entryIndex_lt c _ hcur, ?_⟩
  · intro h
    simp [entryIndex, h]
  · intro h
    simp [entryIndex, h]
  · simp only [List.length_set]
    exact hlen

theorem setState_ring_index_witness :
    ∃ tm1, SetState ⟨2, 64, 64, false⟩ 9
        ⟨true, ⟨⟨0, 1, 1, 1⟩, [⟨0, 0, 0, []⟩, ⟨5, 6, 0, []⟩]⟩⟩ [] = some tm1 ∧
      tm1.section_.header.currentEntry = (1 + 1) % 2 ∧
      (1 ≠ 2 - 1 → tm1.section_.header.currentEntry = 1 + 1) ∧
      (1 = 2 - 1 → tm1.section_.header.currentEntry = 0) ∧
      tm1.section_.header.currentEntry < 2 ∧
      1 < 2 ∧
      tm1.section_.header.currentEntry < 2 ∧
      tm1.section_.entries.length = 2 :=
  setState_ring_index ⟨2, 64, 64, false⟩ 9
    ⟨true, ⟨⟨0, 1, 1, 1⟩, [⟨0, 0, 0, []⟩, ⟨5, 6, 0, []⟩]⟩⟩ [] rfl rfl (by decide)
    (fun _ _ => Nat.zero_le _)

/-- C12: `SetState` saturates the entry count. With `HidEntryCount` below 255
(it is a `u8`, and the sum is cast to `u8` before the `min`), for a section
whose `header.entryCount` is at most `HidEntryCount`, one `SetState` on an
activated manager returns and leaves `header.entryCount` equal to
`min(old + 1, HidEntryCount)`: it does not decrease, does not exceed
`HidEntryCount`, and `header.maxEntry` equals the new `header.entryCount`. -/
theorem setState_entryCount (c : HidDecls) (ticks : Nat) (tm : TouchManager)
    (points : List TouchScreenPoint) (hact : tm.activated = true)
    (hlen : tm.section_.entries.length = c.HidEntryCount)
    (hcur : tm.section_.header.currentEntry < c.HidEntryCount)
    (hfit : ∀ e, tm.section_.entries[entryIndex c tm.section_.header.currentEntry]? = some e →
      points.length ≤ e.data.length)
    (hH : c.HidEntryCount < 255)
    (hcount : tm.section_.header.entryCount ≤ c.HidEntryCount) :
    ∃ tm1, SetState c ticks tm points = some tm1 ∧
      tm1.section_.header.entryCount =
        min (tm.section_.header.entryCount + 1) c.HidEntryCount ∧
      tm.section_.header.entryCount ≤ tm1.section_.header.entryCount ∧
      tm1.section_.header.entryCount ≤ c.HidEntryCount ∧
      tm1.section_.header.maxEntry = tm1.section_.header.entryCount := by
  obtain ⟨lastEntry, entry, data, -, -, -, hS⟩ := SetState_spec c ticks tm points hact hlen hcur hfit
  have hmod : (tm.section_.header.entryCount + 1) % 2 ^ 8 = tm.section_.header.entryCount + 1 :=
    Nat.mod_eq_of_lt (by norm_num; omega)
  have hnext : nextEntryCount c tm.section_.header.entryCount =
      min (tm.section_.header.entryCount + 1) c.HidEntryCount := by
    unfold nextEntryCount
    rw [hmod]
  refine ⟨_, hS, hnext, ?_, ?_, rfl⟩
  · show _ ≤ nextEntryCount c tm.section_.header.entryCount
    rw [hnext]
    omega
  · show nextEntryCount c tm.section_.header.entryCount ≤ _
    rw [hnext]
    omega

theorem setState_entryCount_witness :
    ∃ tm1, SetState ⟨2, 64, 64, false⟩ 9
        ⟨true, ⟨⟨0, 2, 1, 2⟩, [⟨0, 0, 0, []⟩, ⟨5, 6, 0, []⟩]⟩⟩ [] = some tm1 ∧
      tm1.section_.header.entryCount = min (2 + 1) 2 ∧
      2 ≤ tm1.section_.header.entryCount ∧
      tm1.section_.header.entryCount ≤ 2 ∧
      tm1.section_.header.maxEntry = tm1.section_.header.entryCount :=
  setState_entryCount ⟨2, 64, 64, false⟩ 9
    ⟨true, ⟨⟨0, 2, 1, 2⟩, [⟨0, 0, 0, []⟩, ⟨5, 6, 0, []⟩]⟩⟩ [] rfl rfl (by decide)
    (fun _ _ => Nat.zero_le _) (by decide) (by decide)

lemma toU32_spec (v : Int) : ((toU32 v : Nat) : Int) = v % 2 ^ 32 := by
  unfold toU32
  exact Int.toNat_of_nonneg (Int.emod_nonneg _ (by norm_num))

lemma toU32_lt (v : Int) : toU32 v < 2 ^ 32 := by
  have h1 := toU32_spec v
  have h2 : v % 2 ^ 32 < 2 ^ 32 := Int.emod_lt_of_pos _ (by norm_num)
  omega

/-- C14: `SetState` publishes exactly the supplied points. For `n` points that
fit the data array of the entry written (with `n` representable in
`touchCount` and at most `2^32`, the range of the `u32` index), `SetState` on an
activated manager returns, and the entry at the new current index has
`touchCount = n`; for every `i < n` its `data[i]` has `index = i`,
`positionX`, `positionY`, `minorAxis`, `majorAxis` equal to the `i`-th point's
`x`, `y`, `minor`, `major` converted to 32-bit unsigned (the value below `2^32`
congruent to the signed one modulo `2^32`: the number itself when it is in
range, `2^32` more when it is negative), and `angle` equal to the point's
angle; the data slots at positions `n` and above are those the entry had. -/
theorem setState_publishes_points (c : HidDecls) (ticks : Nat) (tm : TouchManager)
    (points : List TouchScreenPoint) (old : TouchScreenState)
    (hact : tm.activated = true)
    (hlen : tm.section_.entries.length = c.HidEntryCount)
    (hcur : tm.section_.header.currentEntry < c.HidEntryCount)
    (hold : tm.section_.entries[entryIndex c tm.section_.header.currentEntry]? = some old)
    (hfit : points.length ≤ old.data.length)
    (hcount : points.length < 2 ^ c.touchCountBits)
    (h32 : points.length ≤ 2 ^ 32) :
    ∃ tm1 e, SetState c ticks tm points = some tm1 ∧
      tm1.section_.header.currentEntry = entryIndex c tm.section_.header.currentEntry ∧
      tm1.currentEntry = some e ∧
      e.touchCount = points.length ∧
      e.data.length = old.data.length ∧
      (∀ i (hi : i < points.length), ∃ g, e.data[i]? = some g ∧
        g.index = i ∧
        g.positionX = toU32 points[i].x ∧
        g.positionY = toU32 points[i].y ∧
        g.minorAxis = toU32 points[i].minor ∧
        g.majorAxis = toU32 points[i].major ∧
        g.angle = points[i].angle ∧
        (g.positionX : Int) = points[i].x % 4294967296 ∧
        (g.positionY : Int) = points[i].y % 4294967296 ∧
        (g.minorAxis : Int) = points[i].minor % 4294967296 ∧
        (g.majorAxis : Int) = points[i].major % 4294967296 ∧
        g.positionX < 4294967296 ∧ g.positionY < 4294967296 ∧
        g.minorAxis < 4294967296 ∧ g.majorAxis < 4294967296) ∧
      (∀ k, points.length ≤ k → e.data[k]? = old.data[k]?) := by
  have hfit2 : ∀ e, tm.section_.entries[entryIndex c tm.section_.header.currentEntry]? = some e →
      points.length ≤ e.data.length := by
    intro e he
    rw [hold] at he
    cases he
    exact hfit
  obtain ⟨lastEntry, entry, data, -, hentry, hdata, hS⟩ :=
    SetState_spec c ticks tm points hact hlen hcur hfit2
  rw [hold] at hentry
  cases hentry
  obtain ⟨out, hout, hlen2, hset, hkeep⟩ := writePoints_spec points 0 old.data (by omega)
  rw [hdata] at hout
  cases hout
  have h2 : entryIndex c tm.section_.header.currentEntry < tm.section_.entries.length :=
    hlen ▸ entryIndex_lt c _ hcur
  refine ⟨_, _, hS, rfl, List.getElem?_set_eq_of_lt _ h2, Nat.mod_eq_of_lt hcount, hlen2, ?_, ?_⟩
  · intro i hi
    have h := hset i hi
    rw [Nat.zero_add] at h
    refine ⟨_, h, ?_, rfl, rfl, rfl, rfl, rfl, toU32_spec _, toU32_spec _, toU32_spec _,
      toU32_spec _, toU32_lt _, toU32_lt _, toU32_lt _, toU32_lt _⟩
    show i % 2 ^ 32 = i
    exact Nat.mod_eq_of_lt (by omega)
  · intro k hk
    exact hkeep k (Or.inr (by omega))

theorem setState_publishes_points_witness :
    ∃ tm1 e, SetState ⟨1, 64, 64, false⟩ 9
        ⟨true, ⟨⟨0, 1, 0, 1⟩, [⟨4, 4, 1, [⟨7, 7, 7, 7, 7, 7⟩, ⟨8, 8, 8, 8, 8, 8⟩]⟩]⟩⟩
        [⟨-1, 20, 4294967299, -4294967295, -5⟩] = some tm1 ∧
      tm1.currentEntry = some e ∧
      e.touchCount = 1 ∧
      e.data = [⟨0, 4294967295, 20, 3, 1, -5⟩, ⟨8, 8, 8, 8, 8, 8⟩] := by
  obtain ⟨tm1, e, hS, -, he, hcnt, hlen, hpts, hkeep⟩ :=
    setState_publishes_points ⟨1, 64, 64, false⟩ 9
      ⟨true, ⟨⟨0, 1, 0, 1⟩, [⟨4, 4, 1, [⟨7, 7, 7, 7, 7, 7⟩, ⟨8, 8, 8, 8, 8, 8⟩]⟩]⟩⟩
      [⟨-1, 20, 4294967299, -4294967295, -5⟩] ⟨4, 4, 1, [⟨7, 7, 7, 7, 7, 7⟩, ⟨8, 8, 8, 8, 8, 8⟩]⟩
      rfl rfl (by decide) rfl (by decide) (by decide) (by decide)
  refine ⟨tm1, e, hS, he, hcnt, ?_⟩
  obtain ⟨g, hg, h1, -, -, -, -, h6, h7, h8, h9, h10, -⟩ := hpts 0 (by decide)
  have hk := hkeep 1 (by decide)
  simp only [List.getElem_cons_zero] at h6 h7 h8 h9 h10
  simp only [List.length_cons, List.length_nil] at hlen
  obtain ⟨ix, px, py, mi, ma, an⟩ := g
  simp only at h1 h6 h7 h8 h9 h10
  have hpx : px = 4294967295 := by omega
  have hpy : py = 20 := by omega
  have hmi : mi = 3 := by omega
  have hma : ma = 1 := by omega
  subst h1 h6 hpx hpy hmi hma
  match hd : e.data, hlen, hg, hk with
  | [a, b], _, hg, hk =>
    simp only [List.getElem?_cons_zero, List.getElem?_cons_succ, Option.some.injEq] at hg hk
    rw [hg, hk]

lemma SetState_step (c : HidDecls) (ticks : Nat) (tm : TouchManager)
    (points : List TouchScreenPoint) (e0 : TouchScreenState) (hact : tm.activated = true)
    (hlen : tm.section_.entries.length = c.HidEntryCount)
    (h0 : tm.currentEntry = some e0)
    (hfit : ∀ e ∈ tm.section_.entries, points.length ≤ e.data.length) :
    ∃ tm1 e1, SetState c ticks tm points = some tm1 ∧
      tm1.activated = true ∧
      tm1.section_.entries.length = c.HidEntryCount ∧
      tm1.currentEntry = some e1 ∧
      e1.globalTimestamp = (e0.globalTimestamp + 1) % 2 ^ c.timestampBits ∧
      e1.localTimestamp = (e0.localTimestamp + 1) % 2 ^ c.timestampBits ∧
      (∀ m, (∀ e ∈ tm.section_.entries, m ≤ e.data.length) →
        ∀ e ∈ tm1.section_.entries, m ≤ e.data.length) := by
  unfold TouchManager.currentEntry at h0
  have hcur : tm.section_.header.currentEntry < c.HidEntryCount := by
    obtain ⟨h, -⟩ := List.getElem?_eq_some_iff.mp h0
    exact hlen ▸ h
  obtain ⟨lastEntry, entry, data, hlast, hentry, hdata, hS⟩ :=
    SetState_spec c ticks tm points hact hlen hcur
      (fun e he => hfit e (List.getElem?_mem he))
  rw [h0] at hlast
  cases hlast
  obtain ⟨out, hout, hlen2, -, -⟩ := writePoints_spec points 0 entry.data
    (by simpa using hfit entry (List.getElem?_mem hentry))
  rw [hdata] at hout
  cases hout
  have h2 : entryIndex c tm.section_.header.currentEntry < tm.section_.entries.length :=
    hlen ▸ entryIndex_lt c _ hcur
  refine ⟨_, _, hS, rfl, ?_, List.getElem?_set_eq_of_lt _ h2, rfl, rfl, ?_⟩
  · simp only [List.length_set]
    exact hlen
  · intro m hm e he
    rcases List.mem_or_eq_of_mem_set he with h | h
    · exact hm e h
    · rw [h]
      show m ≤ data.length
      rw [hlen2]
      exact hm entry (List.getElem?_mem hentry)

lemma SetStates_timestamps (c : HidDecls) (calls : List (Nat × List TouchScreenPoint)) :
    ∀ (tm : TouchManager) (e0 : TouchScreenState), tm.activated = true →
      tm.section_.entries.length = c.HidEntryCount →
      tm.currentEntry = some e0 →
      (∀ call ∈ calls, ∀ e ∈ tm.section_.entries, call.2.length ≤ e.data.length) →
      e0.globalTimestamp < 2 ^ c.timestampBits →
      e0.localTimestamp < 2 ^ c.timestampBits →
      ∃ tmn en, SetStates c tm calls = some tmn ∧ tmn.currentEntry = some en ∧
        en.globalTimestamp = (e0.globalTimestamp + calls.length) % 2 ^ c.timestampBits ∧
        en.localTimestamp = (e0.localTimestamp + calls.length) % 2 ^ c.timestampBits := by
  induction calls with
  | nil =>
    intro tm e0 _ _ h0 _ hg hl
    exact ⟨tm, e0, rfl, h0, (Nat.mod_eq_of_lt hg).symm, (Nat.mod_eq_of_lt hl).symm⟩
  | cons call rest ih =>
    intro tm e0 hact hlen h0 hfit _ _
    obtain ⟨tm1, e1, hS, hact1, hlen1, h1, hg1, hl1, hkeep⟩ :=
      SetState_step c call.1 tm call.2 e0 hact hlen h0
        (hfit call (List.mem_cons_self _ _))
    have hpos : 0 < 2 ^ c.timestampBits := Nat.two_pow_pos _
    obtain ⟨tmn, en, hSn, hn, hgn, hln⟩ := ih tm1 e1 hact1 hlen1 h1
      (fun cl hcl => hkeep _ (hfit cl (List.mem_cons_of_mem _ hcl)))
      (hg1 ▸ Nat.mod_lt _ hpos) (hl1 ▸ Nat.mod_lt _ hpos)
    refine ⟨tmn, en, ?_, hn, ?_, ?_⟩
    · simp only [SetStates, hS]
      exact hSn
    · rw [hgn, hg1, List.length_cons, Nat.mod_add_mod]
      congr 1
      omega
    · rw [hln, hl1, List.length_cons, Nat.mod_add_mod]
      congr 1
      omega

/-- C13: `SetState` stamps each published entry one tick after the previous
one. On an activated manager whose current entry is `e0` (every call passing
points that fit the data arrays), one `SetState` returns and the entry at the
new current index has `globalTimestamp` and `localTimestamp` equal to those of
`e0` plus 1, modulo the width of the field; over `n` consecutive calls the
current entry's timestamps are those of `e0` plus `n` modulo the width, hence
exactly `n` more as long as the field does not overflow. -/
theorem setState_timestamps (c : HidDecls) (tm : TouchManager) (e0 : TouchScreenState)
    (calls : List (Nat × List TouchScreenPoint)) (hact : tm.activated = true)
    (hlen : tm.section_.entries.length = c.HidEntryCount)
    (h0 : tm.currentEntry = some e0)
    (hfit : ∀ call ∈ calls, ∀ e ∈ tm.section_.entries, call.2.length ≤ e.data.length)
    (hg : e0.globalTimestamp < 2 ^ c.timestampBits)
    (hl : e0.localTimestamp < 2 ^ c.timestampBits) :
    (∀ ticks points, (∀ e ∈ tm.section_.entries, points.length ≤ e.data.length) →
      ∃ tm1 e1, SetState c ticks tm points = some tm1 ∧ tm1.currentEntry = some e1 ∧
        e1.globalTimestamp = (e0.globalTimestamp + 1) % 2 ^ c.timestampBits ∧
        e1.localTimestamp = (e0.localTimestamp + 1) % 2 ^ c.timestampBits) ∧
    (∃ tmn en, SetStates c tm calls = some tmn ∧ tmn.currentEntry = some en ∧
      en.globalTimestamp = (e0.globalTimestamp + calls.length) % 2 ^ c.timestampBits ∧
      en.localTimestamp = (e0.localTimestamp + calls.length) % 2 ^ c.timestampBits ∧
      (e0.globalTimestamp + calls.length < 2 ^ c.timestampBits →
        en.globalTimestamp = e0.globalTimestamp + calls.length) ∧
      (e0.localTimestamp + calls.length < 2 ^ c.timestampBits →
        en.localTimestamp = e0.localTimestamp + calls.length)) := by
  constructor
  · intro ticks points hp
    obtain ⟨tm1, e1, hS, -, -, h1, hg1, hl1, -⟩ :=
      SetState_step c ticks tm points e0 hact hlen h0 hp
    exact ⟨tm1, e1, hS, h1, hg1, hl1⟩
  · obtain ⟨tmn, en, hSn, hn, hgn, hln⟩ :=
      SetStates_timestamps c calls tm e0 hact hlen h0 hfit hg hl
    refine ⟨tmn, en, hSn, hn, hgn, hln, ?_, ?_⟩
    · intro h
      rw [hgn, Nat.mod_eq_of_lt h]
    · intro h
      rw [hln, Nat.mod_eq_of_lt h]

theorem setState_timestamps_witness :
    ∃ tmn en, SetStates ⟨2, 3, 64, false⟩
        ⟨true, ⟨⟨0, 1, 1, 1⟩, [⟨0, 0, 0, []⟩, ⟨5, 6, 0, []⟩]⟩⟩ [(10, []), (11, []), (12, [])] =
          some tmn ∧
      tmn.currentEntry = some en ∧
      en.globalTimestamp = (5 + 3) % 2 ^ 3 ∧
      en.localTimestamp = (6 + 3) % 2 ^ 3 ∧
      (5 + 3 < 2 ^ 3 → en.globalTimestamp = 5 + 3) ∧
      (6 + 3 < 2 ^ 3 → en.localTimestamp = 6 + 3) :=
  (setState_timestamps ⟨2, 3, 64, false⟩
    ⟨true, ⟨⟨0, 1, 1, 1⟩, [⟨0, 0, 0, []⟩, ⟨5, 6, 0, []⟩]⟩⟩ ⟨5, 6, 0, []⟩
    [(10, []), (11, []), (12, [])] rfl rfl rfl (by decide) (by decide) (by decide)).2

end Input

end Skyline
